import Mathlib

set_option maxRecDepth 100000

/-!
Shallow embedding of the invoice table-reconstruction pipeline in
`src/pipelines.py` (row assembly, header detection, line-item extraction).

Modelling conventions:
* OCR token coordinates are `Int` (pixel positions).
* Python `float` values are modelled as exact rationals (`ℚ`); the numeric
  strings handled by the pipeline are plain decimal literals, for which
  CPython's `float()` is exact up to double rounding, which never affects
  the comparisons performed here.  The special inputs `inf`/`nan` and
  digit-group underscores accepted by `float()` are outside the model.
* Python strings are modelled through their character lists; the helpers
  below mirror `str.strip`, `str.lower`, `str.split`, `in`, `str.join`,
  `str.startswith`, `str.isdigit` and `str.replace(",", "")` for the ASCII
  text the pipeline manipulates.
-/

/-- Lower-case a string character by character (Python `str.lower` on ASCII). -/
def pyLower (s : String) : String := ⟨s.data.map Char.toLower⟩

/-- Strip leading and trailing whitespace (Python `str.strip()`). -/
def pyStrip (s : String) : String :=
  ⟨(((s.data.dropWhile Char.isWhitespace).reverse).dropWhile Char.isWhitespace).reverse⟩

/-- Join a list of strings with a separator (Python `sep.join(parts)`). -/
def joinWith (sep : String) : List String → String
  | [] => ""
  | [t] => t
  | t :: ts => t ++ sep ++ joinWith sep ts

/-- Character membership test (Python `c in s` for a single character). -/
def strContainsChar (s : String) (c : Char) : Bool := s.data.contains c

/-- Helper for substring search over character lists. -/
def hasSubAux (pat : List Char) : List Char → Bool
  | [] => pat.isEmpty
  | c :: cs => pat.isPrefixOf (c :: cs) || hasSubAux pat cs

/-- Substring test (Python `pat in s` for strings). -/
def strHasSub (s pat : String) : Bool := hasSubAux pat.data s.data

/-- String-level digit test: nonempty and all digits (Python `str.isdigit` on ASCII). -/
def pyIsDigitStr (s : String) : Bool := !s.data.isEmpty && s.data.all Char.isDigit

/-- Helper for whitespace splitting. -/
def splitWsAux : List Char → List Char → List String
  | [], acc => if acc.isEmpty then [] else [⟨acc.reverse⟩]
  | c :: cs, acc =>
    if c.isWhitespace then
      if acc.isEmpty then splitWsAux cs [] else (⟨acc.reverse⟩ : String) :: splitWsAux cs []
    else splitWsAux cs (c :: acc)

/-- Split on whitespace runs, dropping empty parts (Python `str.split()`). -/
def pySplitWs (s : String) : List String := splitWsAux s.data []

/-- Test whether `pat` is a prefix of `s` (Python `str.startswith`). -/
def pyStartsWith (s pat : String) : Bool := pat.data.isPrefixOf s.data

/-- Remove every comma (Python `s.replace(",", "")`). -/
def removeCommas (s : String) : String := ⟨s.data.filter (· ≠ ',')⟩

/-- Value of a list of decimal digit characters. -/
def digitsToNat (l : List Char) : Nat := l.foldl (fun acc c => 10 * acc + (c.toNat - 48)) 0

/-- Parse the optional exponent tail of a decimal literal: either the empty
list (exponent 0) or `e`/`E` followed by an optionally signed digit run. -/
def expPart : List Char → Option Int
  | [] => some 0
  | c :: rest =>
    if c = 'e' ∨ c = 'E' then
      match rest with
      | '+' :: ds => if ds ≠ [] ∧ ds.all Char.isDigit then some (digitsToNat ds : Int) else none
      | '-' :: ds => if ds ≠ [] ∧ ds.all Char.isDigit then some (-(digitsToNat ds : Int)) else none
      | ds => if ds ≠ [] ∧ ds.all Char.isDigit then some (digitsToNat ds : Int) else none
    else none

/-- Rational value of integer digits `ip` and fractional digits `fp`. -/
def mantissaOf (ip fp : List Char) : ℚ :=
  (digitsToNat (ip ++ fp) : ℚ) / (10 : ℚ) ^ fp.length

/-- Apply a decimal exponent to a mantissa. -/
def applyExp (m : ℚ) (e : Int) : ℚ := m * (10 : ℚ) ^ e

/-- Parse an unsigned decimal literal: digits, an optional point with further
digits (at least one digit overall), and an optional exponent. -/
def parseUnsigned (l : List Char) : Option ℚ :=
  let ip := l.takeWhile Char.isDigit
  let rest := l.dropWhile Char.isDigit
  match rest with
  | '.' :: rest2 =>
    let fp := rest2.takeWhile Char.isDigit
    let rest3 := rest2.dropWhile Char.isDigit
    if ip = [] ∧ fp = [] then none
    else (expPart rest3).map (applyExp (mantissaOf ip fp))
  | _ =>
    if ip = [] then none
    else (expPart rest).map (applyExp (mantissaOf ip []))

/-- Model of CPython `float(s)` on plain decimal literals (optional sign,
digits, point, exponent), returning an exact rational; parse failure is
`none`.  `inf`, `nan` and underscore digit separators are outside the model. -/
def pyFloat (s : String) : Option ℚ :=
  match s.data with
  | '+' :: rest => parseUnsigned rest
  | '-' :: rest => Option.map Neg.neg (parseUnsigned rest)
  | l => parseUnsigned l

/-- Embedding of `to_float` (src/pipelines.py lines 154-161): strip, reject
empty or slash-containing strings, remove commas, attempt a float parse. -/
def to_float (s0 : String) : Option ℚ :=
  let s := pyStrip s0
  if s = "" ∨ strContainsChar s '/' then none
  else pyFloat (removeCommas s)

/-- Embedding of `remove_slno` (lines 164-168): drop a leading all-digit
whitespace-separated word, rejoining the rest with single spaces. -/
def remove_slno (desc : String) : String :=
  match pySplitWs desc with
  | p :: rest => if pyIsDigitStr p then joinWith " " rest else desc
  | [] => desc

/-- Embedding of `has_digit` (lines 171-172). -/
def has_digit (s : String) : Bool := s.data.any Char.isDigit

/-- Embedding of `SECTION_HEADERS` (lines 148-151). -/
def SECTION_HEADERS : List String :=
  ["consultation", "room", "nursing", "laboratory", "radiology",
   "surgery", "procedure", "investigation", "others", "pharmacy"]

/-- Embedding of `is_section` (lines 175-178). -/
def is_section (line : String) : Bool :=
  if has_digit line then false
  else SECTION_HEADERS.any (fun h => strHasSub line h)

/-- Embedding of `is_total_footer` (lines 181-185). -/
def is_total_footer (line0 : String) : Bool :=
  let line := pyStrip line0
  pyStartsWith line "total" || strHasSub line "grand total"

/-- Data rows are ordered lists of `(x, token)` pairs, as produced by
`assemble_rows`. -/
abbrev Row := List (Int × String)

/-- OCR output as the parallel arrays of `pytesseract.image_to_data`
that the pipeline reads (`left`, `top`, `text`). -/
structure OCR where
  left : List Int
  top : List Int
  text : List String

/-- Sort a list of integers ascending (Python `sorted` / `list.sort`). -/
def sortInts (l : List Int) : List Int := List.insertionSort (· ≤ ·) l

/-- Consecutive pairwise differences of a list, keeping only positive ones
(the `diffs` comprehension in `_estimate_y_gap`). -/
def adjPosDiffs (l : List Int) : List Int :=
  (l.zip l.tail).filterMap (fun p => if 0 < p.2 - p.1 then some (p.2 - p.1) else none)

/-- Top coordinates of the non-blank tokens (`tops` in `_estimate_y_gap`). -/
def nonblankTops (ocr : OCR) : List Int :=
  (ocr.top.zip ocr.text).filterMap (fun p => if pyStrip p.2 ≠ "" then some p.1 else none)

/-- Embedding of `_estimate_y_gap` (src/pipelines.py lines 46-56).
Python's `int(median_gap * 0.8)` equals `(4 * median_gap) / 5` rounded
toward zero; the median is positive here, so integer division is exact. -/
def estimate_y_gap (ocr : OCR) : Int :=
  let tops := nonblankTops ocr
  if tops.length < 3 then 12
  else
    let diffs := adjPosDiffs (sortInts tops)
    if diffs.isEmpty then 12
    else
      let ds := sortInts diffs
      let m := ds.getD (ds.length / 2) 0
      max 10 ((4 * m) / 5)

/-- Stable insertion of a token into a row sorted by `x`. -/
def insertTok (p : Int × String) : List (Int × String) → List (Int × String)
  | [] => [p]
  | q :: qs => if p.1 ≤ q.1 then p :: q :: qs else q :: insertTok p qs

/-- Stable sort of a row by `x` (Python `sorted(current, key=lambda v: v[0])`). -/
def sortRow : List (Int × String) → List (Int × String)
  | [] => []
  | p :: ps => insertTok p (sortRow ps)

/-- Embedding of the token loop of `assemble_rows` (lines 63-79): cluster
non-blank tokens into rows by the vertical gap to the previous token. -/
def assembleLoop (y_gap : Int) :
    List (Int × Int × String) → List (Int × String) → Option Int → List Row
  | [], current, _ => if current.isEmpty then [] else [sortRow current]
  | (x, y, text) :: rest, current, last_top =>
    let token := pyStrip text
    if token = "" then assembleLoop y_gap rest current last_top
    else
      match last_top with
      | none => assembleLoop y_gap rest (current ++ [(x, token)]) (some y)
      | some lt =>
        if |y - lt| ≤ y_gap then assembleLoop y_gap rest (current ++ [(x, token)]) (some y)
        else sortRow current :: assembleLoop y_gap rest [(x, token)] (some y)

/-- Embedding of `assemble_rows` (lines 59-81); `y_gap = none` models the
`y_gap=None` default, estimated by `_estimate_y_gap`. -/
def assemble_rows (ocr : OCR) (y_gap : Option Int) : List Row :=
  let g := match y_gap with
    | some g => g
    | none => estimate_y_gap ocr
  assembleLoop g (ocr.left.zip (ocr.top.zip ocr.text) |>.map (fun p => (p.1, p.2.1, p.2.2))) [] none

/-- Embedding of `HEADER_KEYWORDS` (lines 87-92). -/
def HEADER_KEYWORDS : List String :=
  ["description", "desc", "particulars",
   "qty", "hr", "hrs",
   "rate",
   "amount", "amt", "net", "total", "gross", "discount"]

/-- Joined lower-cased text of a row (`" ".join(w for _, w in row).lower()`). -/
def rowLine (row : Row) : String := pyLower (joinWith " " (row.map Prod.snd))

/-- Keyword score of a row: how many entries of `HEADER_KEYWORDS` occur as a
substring of the row's joined lower-cased text (line 101). -/
def rowScore (row : Row) : Nat :=
  (HEADER_KEYWORDS.filter (fun kw => strHasSub (rowLine row) kw)).length

/-- Embedding of the header-selection loop (lines 96-104): first row with a
strictly larger score than every earlier row wins. -/
def bestLoop : Nat → Option Nat → Nat → List Row → Option Nat × Nat
  | _, idx, best, [] => (idx, best)
  | i, idx, best, row :: rest =>
    if best < rowScore row then bestLoop (i + 1) (some i) (rowScore row) rest
    else bestLoop (i + 1) idx best rest

/-- Slot x-coordinates collected from the header row (lines 111-124). -/
structure Slots where
  x_desc : Option Int
  x_date : Option Int
  x_qty : Option Int
  x_rate : Option Int
  x_amount : Option Int
deriving DecidableEq, Repr

/-- One step of the header-token slot assignment (lines 113-124); a later
matching token overwrites an earlier one in the same slot. -/
def assignSlot (s : Slots) (p : Int × String) : Slots :=
  let w := pyLower p.2
  if strHasSub w "desc" || strHasSub w "particular" then { s with x_desc := some p.1 }
  else if strHasSub w "date" then { s with x_date := some p.1 }
  else if strHasSub w "qty" || strHasSub w "hr" then { s with x_qty := some p.1 }
  else if strHasSub w "rate" then { s with x_rate := some p.1 }
  else if strHasSub w "amount" || strHasSub w "amt" || strHasSub w "net" ||
          strHasSub w "total" || strHasSub w "gross" then { s with x_amount := some p.1 }
  else s

/-- Slot assignment over the whole header row. -/
def slotsOf (header : Row) : Slots :=
  header.foldl assignSlot ⟨none, none, none, none, none⟩

/-- Column boundaries: the optional entries of the Python `boundaries` dict. -/
structure Boundaries where
  desc_end : Option ℚ
  date_end : Option ℚ
  qty_end : Option ℚ
  rate_end : Option ℚ
deriving DecidableEq, Repr

/-- Midpoint of two x-coordinates (`(xs[i] + xs[i+1]) / 2`). -/
def mid (a b : Int) : ℚ := ((a : ℚ) + (b : ℚ)) / 2

/-- Sorted distinct values (Python `sorted(set(xs))`). -/
def sortedDistinct (l : List Int) : List Int := sortInts l.dedup

/-- Boundary dict built from sorted distinct slot coordinates
(lines 132-140): the k-th midpoint is keyed `desc_end`, `date_end`,
`qty_end`, `rate_end` in that fixed order, each present only when enough
coordinates exist. -/
def mkBoundaries : List Int → Boundaries
  | [] => ⟨none, none, none, none⟩
  | [_] => ⟨none, none, none, none⟩
  | [a, b] => ⟨some (mid a b), none, none, none⟩
  | [a, b, c] => ⟨some (mid a b), some (mid b c), none, none⟩
  | [a, b, c, d] => ⟨some (mid a b), some (mid b c), some (mid c d), none⟩
  | a :: b :: c :: d :: e :: _ =>
    ⟨some (mid a b), some (mid b c), some (mid c d), some (mid d e)⟩

/-- Embedding of `detect_header_and_boundaries` (lines 95-142). -/
def detect_header_and_boundaries (rows : List Row) : Option Nat × Option Boundaries :=
  match bestLoop 0 none 0 rows with
  | (none, _) => (none, none)
  | (some i, best) =>
    if best < 2 then (none, none)
    else
      let s := slotsOf (rows.getD i [])
      let xs := sortedDistinct ([s.x_desc, s.x_date, s.x_qty, s.x_rate, s.x_amount].filterMap id)
      if xs.isEmpty then (some i, none)
      else (some i, some (mkBoundaries xs))

/-- One structured billing entry, as emitted by `extract_items`. -/
structure LineItem where
  item_name : String
  item_quantity : ℚ
  item_rate : ℚ
  item_amount : ℚ
deriving DecidableEq, Repr

/-- Python truthiness test `b and x < b` used on each boundary in the
bucketing chain (lines 217-224): a missing boundary — and also a boundary
equal to `0.0`, which is falsy in Python — never captures a token. -/
def truthyLt (b : Option ℚ) (x : Int) : Bool :=
  match b with
  | none => false
  | some v => decide (v ≠ 0) && decide ((x : ℚ) < v)

/-- The four retained buckets of a data row (the date bucket is discarded
by the source, lines 219-220). -/
structure RowBuckets where
  descB : List String
  qtyB : List String
  rateB : List String
  amountB : List String
deriving DecidableEq, Repr

/-- Embedding of the bucketing loop (lines 214-226): each token falls into
the first bucket whose boundary test passes, tokens in the date column are
dropped, and everything beyond the last boundary is an amount token. -/
def fillBuckets (de da qe re : Option ℚ) : Row → RowBuckets
  | [] => ⟨[], [], [], []⟩
  | (x, t) :: rest =>
    let B := fillBuckets de da qe re rest
    if truthyLt de x then { B with descB := t :: B.descB }
    else if truthyLt da x then B
    else if truthyLt qe x then { B with qtyB := t :: B.qtyB }
    else if truthyLt re x then { B with rateB := t :: B.rateB }
    else { B with amountB := t :: B.amountB }

/-- Boundary lookups of lines 198-201 (`boundaries.get(...) if boundaries
else None`). -/
def rowBuckets (b? : Option Boundaries) (row : Row) : RowBuckets :=
  match b? with
  | none => fillBuckets none none none none row
  | some b => fillBuckets b.desc_end b.date_end b.qty_end b.rate_end row

/-- Cleaned description of a row (line 228). -/
def descText (b? : Option Boundaries) (row : Row) : String :=
  remove_slno (pyStrip (joinWith " " (rowBuckets b? row).descB))

/-- Parsed quantity of a row (lines 230, 235). -/
def qtyParsed (b? : Option Boundaries) (row : Row) : Option ℚ :=
  let t := pyStrip (joinWith "" (rowBuckets b? row).qtyB)
  if t ≠ "" then to_float t else none

/-- Parsed rate-bucket value of a row (lines 231, 236). -/
def rateParsed (b? : Option Boundaries) (row : Row) : Option ℚ :=
  let t := pyStrip (joinWith "" (rowBuckets b? row).rateB)
  if t ≠ "" then to_float t else none

/-- Qualifying amount-bucket tokens: containing a digit and no slash
(line 233). -/
def amountCandidates (b? : Option Boundaries) (row : Row) : List String :=
  (rowBuckets b? row).amountB.filter (fun t => has_digit t && !strContainsChar t '/')

/-- Parsed amount of a row: the last qualifying amount token, if any
(lines 237-240). -/
def amountParsed (b? : Option Boundaries) (row : Row) : Option ℚ :=
  match (amountCandidates b? row).getLast? with
  | some t => to_float t
  | none => none

/-- Final rate of a row (lines 236, 241-242): the rate bucket's parse, or —
when that is absent and at least two qualifying amount tokens exist — the
parse of the second-to-last qualifying amount token. -/
def rateFinal (b? : Option Boundaries) (row : Row) : Option ℚ :=
  let c := amountCandidates b? row
  if (rateParsed b? row).isNone ∧ 2 ≤ c.length then to_float (c.getD (c.length - 2) "")
  else rateParsed b? row

/-- The quantity safety corrections of lines 244-252: discard a quantity
equal to the amount, then discard a quantity above 25, then default an
absent quantity to 1. -/
def correct_qty (qty amount : Option ℚ) : ℚ :=
  let q1 : Option ℚ :=
    match qty, amount with
    | some q, some a => if q = a then none else some q
    | q?, _ => q?
  let q2 : Option ℚ :=
    match q1 with
    | some q => if 25 < q then none else some q
    | none => none
  match q2 with
  | some q => q
  | none => 1

/-- The row exclusion filters of lines 204-212 (totals footer, section
divider, category total). -/
def rowFiltered (row : Row) : Bool :=
  let line := pyLower (joinWith " " (row.map Prod.snd))
  is_total_footer line || is_section line || strHasSub line "category total"

/-- Body of the per-row loop of `extract_items` (lines 203-265): `none`
models `continue`, `some item` models `items.append(item)`. -/
def processRow (b? : Option Boundaries) (row : Row) : Option LineItem :=
  if rowFiltered row then none
  else
    match amountParsed b? row with
    | none => none
    | some a =>
      if descText b? row = "" then none
      else
        some { item_name := descText b? row,
               item_quantity := correct_qty (qtyParsed b? row) (amountParsed b? row),
               item_rate := (rateFinal b? row).getD a,
               item_amount := a }

/-- The row loop of `extract_items`, accumulating accepted items in order. -/
def extractLoop (b? : Option Boundaries) : List Row → List LineItem
  | [] => []
  | row :: rest =>
    match processRow b? row with
    | some item => item :: extractLoop b? rest
    | none => extractLoop b? rest

/-- Embedding of `extract_items` (lines 191-267). -/
def extract_items (rows : List Row) (header_idx : Option Nat) (b? : Option Boundaries) :
    List LineItem :=
  match header_idx with
  | none => []
  | some i => extractLoop b? (rows.drop (i + 1))

/-! Concrete inputs used by counterexamples and witnesses. -/

/-- Header row of the end-to-end example of the spec (`Description@10,
Qty@300, Rate@400, Amount@500`). -/
def headerRow1 : Row := [(10, "Description"), (300, "Qty"), (400, "Rate"), (500, "Amount")]

/-- Data row of the end-to-end example (`92@10, Livi@40, 300mg@70, Tab@100,
2@300, 50.00@400, 100.00@500`). -/
def dataRow1 : Row :=
  [(10, "92"), (40, "Livi"), (70, "300mg"), (100, "Tab"), (300, "2"),
   (400, "50.00"), (500, "100.00")]

/-- Rows of the end-to-end example. -/
def rows1 : List Row := [headerRow1, dataRow1]

/-- Boundaries actually produced for `rows1`. -/
def bnd1 : Boundaries := ⟨some 155, some 350, some 450, none⟩

/-- Line item actually produced for `rows1`. -/
def item1 : LineItem := ⟨"Livi 300mg Tab", 1, 100, 100⟩

/-- A single-row input whose only row contains just the word `Description`. -/
def rows2 : List Row := [[(10, "Description")]]

/-- A single-row input whose only row contains just the word `rate`. -/
def rows2b : List Row := [[(5, "rate")]]

/-- Boundaries for the zero-quantity data row below. -/
def bnd5 : Boundaries := ⟨some 100, none, some 200, some 300⟩

/-- A data row whose quantity bucket holds the token `0`. -/
def row5 : Row := [(10, "Widget"), (150, "0"), (250, "10.00"), (350, "50.00")]

/-- Line item actually produced for `row5` under `bnd5`. -/
def item5 : LineItem := ⟨"Widget", 0, 10, 50⟩

/-- Tokens of an OCR stream with three non-blank tokens but only two
distinct top coordinates. -/
def ocr3 : OCR := ⟨[0, 0, 0], [5, 5, 30], ["a", "b", "c"]⟩

/-- Tokens of an OCR stream with three distinct top coordinates. -/
def ocr3w : OCR := ⟨[0, 0, 0], [0, 10, 25], ["a", "b", "c"]⟩

/-- A two-token row used by the C8 witness. -/
def row8 : Row := [(0, "5.00"), (1, "7.00")]

/-- The four keyword categories of the header vocabulary, as grouped in the
source listing of `HEADER_KEYWORDS`: description/particulars terms,
quantity/hour terms, rate, and amount/net/total/gross/discount terms. -/
def headerCategories : List (List String) :=
  [["description", "desc", "particulars"],
   ["qty", "hr", "hrs"],
   ["rate"],
   ["amount", "amt", "net", "total", "gross", "discount"]]

/-- Number of distinct keyword categories matched (as substrings) by a
row's joined lower-cased text. -/
def categoryScore (row : Row) : Nat :=
  (headerCategories.filter (fun cat => cat.any (fun kw => strHasSub (rowLine row) kw))).length

/-! Helper lemmas. -/

/-- Helper: `List.getD` of a successful `List.get?`. -/
lemma getD_eq_of_get? {α : Type} :
    ∀ (l : List α) (n : Nat) (d a : α), l.get? n = some a → l.getD n d = a := by
  intro l
  induction l with
  | nil => intro n d a h; simp at h
  | cons x xs ih =>
    intro n d a h
    cases n with
    | zero => simp at h; simpa [List.getD] using h
    | succ m => exact ih m d a h

/-- Provenance of the header candidate: when `bestLoop` returns an index,
it is either the incoming candidate (with its incoming score) or a
position in the scanned suffix whose row achieves the returned score. -/
lemma bestLoop_provenance (l : List Row) :
    ∀ (i : Nat) (idx : Option Nat) (best : Nat) (j s : Nat),
      bestLoop i idx best l = (some j, s) →
      (idx = some j ∧ s = best) ∨
      ∃ k row, l.get? k = some row ∧ j = i + k ∧ s = rowScore row := by
  induction l with
  | nil =>
    intro i idx best j s h
    simp only [bestLoop, Prod.mk.injEq] at h
    exact Or.inl ⟨h.1, h.2.symm⟩
  | cons row rest ih =>
    intro i idx best j s h
    by_cases hc : best < rowScore row
    · rw [bestLoop, if_pos hc] at h
      rcases ih (i + 1) (some i) (rowScore row) j s h with ⟨h1, h2⟩ | ⟨k, row', hget, hj, hs⟩
      · injection h1 with h1
        exact Or.inr ⟨0, row, rfl, by omega, h2⟩
      · exact Or.inr ⟨k + 1, row', hget, by omega, hs⟩
    · rw [bestLoop, if_neg hc] at h
      rcases ih (i + 1) idx best j s h with hl | ⟨k, row', hget, hj, hs⟩
      · exact Or.inl hl
      · exact Or.inr ⟨k + 1, row', hget, by omega, hs⟩

/-- Helper: the running best score stays below 2 when every remaining row
scores below 2. -/
lemma bestLoop_low (l : List Row) :
    ∀ (i : Nat) (idx : Option Nat) (best : Nat),
      (∀ row ∈ l, rowScore row < 2) → best < 2 →
      (bestLoop i idx best l).2 < 2 := by
  induction l with
  | nil => intro i idx best _ hb; simpa [bestLoop] using hb
  | cons row rest ih =>
    intro i idx best hall hb
    by_cases hc : best < rowScore row
    · rw [bestLoop, if_pos hc]
      exact ih (i + 1) (some i) (rowScore row)
        (fun r hr => hall r (List.mem_cons_of_mem _ hr)) (hall row (List.mem_cons_self _ _))
    · rw [bestLoop, if_neg hc]
      exact ih (i + 1) idx best (fun r hr => hall r (List.mem_cons_of_mem _ hr)) hb

/-- Helper: the extraction loop is a `filterMap` of the per-row body. -/
lemma extractLoop_eq_filterMap (b? : Option Boundaries) :
    ∀ l : List Row, extractLoop b? l = l.filterMap (processRow b?) := by
  intro l
  induction l with
  | nil => rfl
  | cons row rest ih => cases h : processRow b? row <;> simp [extractLoop, h, ih]

/-- Helper: the corrected quantity never exceeds 25. -/
lemma correct_qty_le (q? a? : Option ℚ) : correct_qty q? a? ≤ 25 := by
  rcases q? with _ | q
  · rcases a? with _ | a <;> simp [correct_qty]
  · rcases a? with _ | a
    · by_cases h2 : 25 < q
      · simp [correct_qty, h2]
      · simpa [correct_qty, h2] using le_of_not_lt h2
    · by_cases h1 : q = a
      · simp [correct_qty, h1]
      · by_cases h2 : 25 < q
        · simp [correct_qty, h1, h2]
        · simpa [correct_qty, h1, h2] using le_of_not_lt h2

/-- Helper: every boundary map produced by `detect_header_and_boundaries`
is `mkBoundaries` of a sorted duplicate-free coordinate list. -/
lemma detect_boundary_shape (rows : List Row) (i? : Option Nat) (b : Boundaries)
    (h : detect_header_and_boundaries rows = (i?, some b)) :
    ∃ l : List Int, b = mkBoundaries (sortedDistinct l) := by
  unfold detect_header_and_boundaries at h
  rcases hb : bestLoop 0 none 0 rows with ⟨idx, best⟩
  rw [hb] at h
  rcases idx with _ | i0
  · simp at h
  · simp only [] at h
    by_cases hlt : best < 2
    · simp [hlt] at h
    · simp [hlt] at h
      split at h
      · injection h with h1 h2
        exact absurd h2 (by simp)
      · injection h with h1 h2
        injection h2 with h2
        exact ⟨_, h2.symm⟩

/-- Helper: sorted distinct integer lists are strictly pairwise increasing. -/
lemma sortedDistinct_pairwise_lt (l : List Int) : (sortedDistinct l).Pairwise (· < ·) := by
  have hs : (sortedDistinct l).Pairwise (· ≤ ·) := List.sorted_insertionSort _ _
  have hn : (sortedDistinct l).Nodup :=
    ((List.perm_insertionSort _ _).nodup_iff).mpr (List.nodup_dedup l)
  exact (hs.and hn).imp (fun h => lt_of_le_of_ne h.1 h.2)

/-- Helper: midpoints are strictly monotone in both endpoints. -/
lemma mid_lt_mid {a b c d : Int} (h1 : a < c) (h2 : b < d) : mid a b < mid c d := by
  unfold mid
  have hac : (a : ℚ) < c := by exact_mod_cast h1
  have hbd : (b : ℚ) < d := by exact_mod_cast h2
  linarith

/-- Helper: present boundaries of `mkBoundaries` on a strictly increasing
list are strictly increasing in the order desc, date, qty, rate. -/
lemma mkBoundaries_lt (xs : List Int) (hp : xs.Pairwise (· < ·)) :
    (∀ u v, (mkBoundaries xs).desc_end = some u → (mkBoundaries xs).date_end = some v → u < v) ∧
    (∀ u v, (mkBoundaries xs).desc_end = some u → (mkBoundaries xs).qty_end = some v → u < v) ∧
    (∀ u v, (mkBoundaries xs).desc_end = some u → (mkBoundaries xs).rate_end = some v → u < v) ∧
    (∀ u v, (mkBoundaries xs).date_end = some u → (mkBoundaries xs).qty_end = some v → u < v) ∧
    (∀ u v, (mkBoundaries xs).date_end = some u → (mkBoundaries xs).rate_end = some v → u < v) ∧
    (∀ u v, (mkBoundaries xs).qty_end = some u → (mkBoundaries xs).rate_end = some v → u < v) := by
  match xs, hp with
  | [], _ =>
    refine ⟨?_, ?_, ?_, ?_, ?_, ?_⟩ <;> intro u v hu hv <;> simp [mkBoundaries] at hu hv
  | [a], _ =>
    refine ⟨?_, ?_, ?_, ?_, ?_, ?_⟩ <;> intro u v hu hv <;> simp [mkBoundaries] at hu hv
  | [a, b], _ =>
    refine ⟨?_, ?_, ?_, ?_, ?_, ?_⟩ <;> intro u v hu hv <;> simp [mkBoundaries] at hu hv
  | [a, b, c], hp =>
    obtain ⟨h1, hp2⟩ := List.pairwise_cons.mp hp
    obtain ⟨h2, _⟩ := List.pairwise_cons.mp hp2
    have hab : a < b := h1 b (by simp)
    have hac : a < c := h1 c (by simp)
    have hbc : b < c := h2 c (by simp)
    refine ⟨?_, ?_, ?_, ?_, ?_, ?_⟩ <;> intro u v hu hv <;>
      simp [mkBoundaries] at hu hv <;> subst hu <;> subst hv <;>
      exact mid_lt_mid (by omega) (by omega)
  | [a, b, c, d], hp =>
    obtain ⟨h1, hp2⟩ := List.pairwise_cons.mp hp
    obtain ⟨h2, hp3⟩ := List.pairwise_cons.mp hp2
    obtain ⟨h3, _⟩ := List.pairwise_cons.mp hp3
    have hab : a < b := h1 b (by simp)
    have hac : a < c := h1 c (by simp)
    have had : a < d := h1 d (by simp)
    have hbc : b < c := h2 c (by simp)
    have hbd : b < d := h2 d (by simp)
    have hcd : c < d := h3 d (by simp)
    refine ⟨?_, ?_, ?_, ?_, ?_, ?_⟩ <;> intro u v hu hv <;>
      simp [mkBoundaries] at hu hv <;> subst hu <;> subst hv <;>
      exact mid_lt_mid (by omega) (by omega)
  | a :: b :: c :: d :: e :: rest, hp =>
    obtain ⟨h1, hp2⟩ := List.pairwise_cons.mp hp
    obtain ⟨h2, hp3⟩ := List.pairwise_cons.mp hp2
    obtain ⟨h3, hp4⟩ := List.pairwise_cons.mp hp3
    obtain ⟨h4, _⟩ := List.pairwise_cons.mp hp4
    have hab : a < b := h1 b (by simp)
    have hac : a < c := h1 c (by simp)
    have had : a < d := h1 d (by simp)
    have hae : a < e := h1 e (by simp)
    have hbc : b < c := h2 c (by simp)
    have hbd : b < d := h2 d (by simp)
    have hbe : b < e := h2 e (by simp)
    have hcd : c < d := h3 d (by simp)
    have hce : c < e := h3 e (by simp)
    have hde : d < e := h4 e (by simp)
    refine ⟨?_, ?_, ?_, ?_, ?_, ?_⟩ <;> intro u v hu hv <;>
      simp [mkBoundaries] at hu hv <;> subst hu <;> subst hv <;>
      exact mid_lt_mid (by omega) (by omega)

/-- Helper: present boundary keys of `mkBoundaries` form a prefix of
desc, date, qty, rate. -/
lemma mkBoundaries_keys (xs : List Int) :
    ((mkBoundaries xs).rate_end.isSome = true → (mkBoundaries xs).qty_end.isSome = true) ∧
    ((mkBoundaries xs).qty_end.isSome = true → (mkBoundaries xs).date_end.isSome = true) ∧
    ((mkBoundaries xs).date_end.isSome = true → (mkBoundaries xs).desc_end.isSome = true) := by
  match xs with
  | [] => simp [mkBoundaries]
  | [a] => simp [mkBoundaries]
  | [a, b] => simp [mkBoundaries]
  | [a, b, c] => simp [mkBoundaries]
  | [a, b, c, d] => simp [mkBoundaries]
  | a :: b :: c :: d :: e :: rest => simp [mkBoundaries]

/-! Claim theorems. -/

/-- C1: the claimed end-to-end result is false on the code.  On the spec's
example input the code labels the three midpoints `desc_end`, `date_end`,
`qty_end` (there is no `rate_end`), so the quantity token `2` is discarded
as a date-column token and the rate token `50.00` lands in the quantity
bucket, where the `> 25` correction discards it: the emitted item is
`{Livi 300mg Tab, 1.0, 100.0, 100.0}`, not the claimed
`{Livi 300mg Tab, 2.0, 50.0, 100.0}`, and the boundary map is
`{desc_end: 155, date_end: 350, qty_end: 450}`, not
`{desc_end: 155, qty_end: 350, rate_end: 450}`. -/
theorem c1_counterexample :
    detect_header_and_boundaries rows1 = (some 0, some bnd1) ∧
    bnd1.rate_end = none ∧
    bnd1 ≠ (⟨some 155, none, some 350, some 450⟩ : Boundaries) ∧
    extract_items rows1 (detect_header_and_boundaries rows1).1
      (detect_header_and_boundaries rows1).2 = [item1] ∧
    item1 ≠ (⟨"Livi 300mg Tab", 2, 50, 100⟩ : LineItem) := by
  with_unfolding_all decide

/-- C1 (amended): on the header tokens `Description@10, Qty@300, Rate@400,
Amount@500` followed by the data row `92@10, Livi@40, 300mg@70, Tab@100,
2@300, 50.00@400, 100.00@500`, `detect_header_and_boundaries` followed by
`extract_items` yields the boundaries `desc_end=155, date_end=350,
qty_end=450` (no `rate_end`) and exactly one line item
`{item_name: "Livi 300mg Tab", item_quantity: 1.0, item_rate: 100.0,
item_amount: 100.0}`. -/
theorem c1_end_to_end :
    detect_header_and_boundaries rows1 = (some 0, some bnd1) ∧
    extract_items rows1 (some 0) (some bnd1) = [item1] := by
  with_unfolding_all decide

/-- C2: the claim is false: header selection thresholds the number of
matching keyword *strings*, not distinct keyword categories.  A row whose
text is just `Description` matches only the description category, yet it
matches two keyword strings (`description` and `desc`), so it is selected
as header (with an empty boundary map) rather than rejected. -/
theorem c2_counterexample :
    categoryScore (rows2.getD 0 []) = 1 ∧
    detect_header_and_boundaries rows2 = (some 0, some ⟨none, none, none, none⟩) ∧
    detect_header_and_boundaries rows2 ≠ (none, none) := by
  with_unfolding_all decide

/-- C2 (amended): `detect_header_and_boundaries` selects a header row only
if that row's joined lower-cased text contains at least two of the keyword
strings of the header vocabulary (keyword strings are counted, not
distinct categories, and overlapping keywords such as `description` ⊇
`desc` count twice); when every row matches fewer than two keyword
strings — e.g. a row containing only `rate` — the function returns
`(none, none)` and boundaries are absent. -/
theorem c2_header_threshold :
    (∀ (rows : List Row) (i : Nat) (b? : Option Boundaries),
       detect_header_and_boundaries rows = (some i, b?) →
       i < rows.length ∧ 2 ≤ rowScore (rows.getD i [])) ∧
    (∀ rows : List Row, (∀ row ∈ rows, rowScore row < 2) →
       detect_header_and_boundaries rows = (none, none)) := by
  constructor
  · intro rows i b? h
    unfold detect_header_and_boundaries at h
    rcases hb : bestLoop 0 none 0 rows with ⟨idx, best⟩
    rcases idx with _ | i0
    · rw [hb] at h
      simp at h
    · rw [hb] at h
      by_cases hlt : best < 2
      · simp [hlt] at h
      · have hi : i = i0 := by
          simp [hlt] at h
          split at h
          · injection h with h1 _; injection h1 with h1; exact h1.symm
          · injection h with h1 _; injection h1 with h1; exact h1.symm
        subst hi
        rcases bestLoop_provenance rows 0 none 0 i best hb with ⟨h1, _⟩ | ⟨k, row, hget, hjk, hs⟩
        · simp at h1
        · have hk : i = k := by omega
          subst hk
          obtain ⟨hlen, _⟩ := List.get?_eq_some.mp hget
          refine ⟨hlen, ?_⟩
          rw [getD_eq_of_get? rows i [] row hget]
          omega
  · intro rows hall
    unfold detect_header_and_boundaries
    rcases hb : bestLoop 0 none 0 rows with ⟨idx, best⟩
    have hlow : best < 2 := by
      have h2 := bestLoop_low rows 0 none 0 hall (by norm_num)
      rw [hb] at h2
      exact h2
    rcases idx with _ | i0
    · rfl
    · simp [hlow]

/-- C2 witness: the selected header of `rows1` scores at least 2, and the
single-keyword input `rows2b` yields `(none, none)`. -/
theorem c2_witness :
    (0 < rows1.length ∧ 2 ≤ rowScore (rows1.getD 0 [])) ∧
    detect_header_and_boundaries rows2b = (none, none) :=
  ⟨c2_header_threshold.1 rows1 0 (some bnd1) (by with_unfolding_all decide),
   c2_header_threshold.2 rows2b (by decide)⟩

/-- C3: the claim is false: the `< 3` default test of `_estimate_y_gap`
counts non-blank tokens, not distinct top coordinates.  A stream with
three non-blank tokens at tops `5, 5, 30` has only two distinct tops, so
the claimed formula gives the default 12, but the code computes
`max(10, int(25 * 0.8)) = 20`. -/
theorem c3_counterexample :
    (nonblankTops ocr3).dedup.length = 2 ∧
    estimate_y_gap ocr3 = 20 ∧
    (20 : Int) ≠ 12 := by decide

/-- C3 (amended): when `y_gap` is not supplied the estimate is: 12 if the
stream has fewer than 3 non-blank tokens, or if the sorted tops have no
positive consecutive difference; otherwise the maximum of 10 and the floor
of 0.8 times the upper median (the element at index `len / 2` of the
sorted difference list) of the positive consecutive differences of the
sorted tops. -/
theorem c3_y_gap_formula (ocr : OCR) :
    ((nonblankTops ocr).length < 3 → estimate_y_gap ocr = 12) ∧
    (3 ≤ (nonblankTops ocr).length → adjPosDiffs (sortInts (nonblankTops ocr)) = [] →
      estimate_y_gap ocr = 12) ∧
    (3 ≤ (nonblankTops ocr).length → adjPosDiffs (sortInts (nonblankTops ocr)) ≠ [] →
      estimate_y_gap ocr =
        max 10 ((4 * (sortInts (adjPosDiffs (sortInts (nonblankTops ocr)))).getD
          ((sortInts (adjPosDiffs (sortInts (nonblankTops ocr)))).length / 2) 0) / 5)) ∧
    assemble_rows ocr none = assemble_rows ocr (some (estimate_y_gap ocr)) := by
  refine ⟨?_, ?_, ?_, rfl⟩
  · intro h
    simp [estimate_y_gap, h]
  · intro h3 hd
    have h' : ¬ (nonblankTops ocr).length < 3 := by omega
    simp [estimate_y_gap, h', hd]
  · intro h3 hd
    have h' : ¬ (nonblankTops ocr).length < 3 := by omega
    have hd' : (adjPosDiffs (sortInts (nonblankTops ocr))).isEmpty = false := by
      simpa [List.isEmpty_iff] using hd
    simp [estimate_y_gap, h', hd']

/-- C3 witness: the formula branch of the amended claim evaluated on a
stream with tops `0, 10, 25` (sorted differences `10, 15`, upper median
15, `max 10 12 = 12`). -/
theorem c3_witness :
    estimate_y_gap ocr3w =
      max 10 ((4 * (sortInts (adjPosDiffs (sortInts (nonblankTops ocr3w)))).getD
        ((sortInts (adjPosDiffs (sortInts (nonblankTops ocr3w)))).length / 2) 0) / 5) :=
  (c3_y_gap_formula ocr3w).2.2.1 (by decide) (by decide)

/-- C4: the quantity safety corrections: a quantity equal to the amount is
discarded; a still-present quantity above 25 is discarded (30 is
discarded, 24 is retained); an absent quantity defaults to 1.0; and every
emitted item's `item_quantity` is exactly the corrected value of its
parsed quantity and amount. -/
theorem c4_qty_corrections :
    (∀ q a : ℚ, correct_qty (some q) (some a) =
        if q = a then 1 else if 25 < q then 1 else q) ∧
    (∀ q : ℚ, correct_qty (some q) none = if 25 < q then 1 else q) ∧
    (∀ a? : Option ℚ, correct_qty none a? = 1) ∧
    correct_qty (some 30) (some 100) = 1 ∧
    correct_qty (some 24) (some 100) = 24 ∧
    (∀ (b? : Option Boundaries) (row : Row) (item : LineItem),
       processRow b? row = some item →
       item.item_quantity = correct_qty (qtyParsed b? row) (amountParsed b? row)) := by
  refine ⟨?_, ?_, ?_, by with_unfolding_all decide, by with_unfolding_all decide, ?_⟩
  · intro q a
    by_cases h1 : q = a
    · simp [correct_qty, h1]
    · by_cases h2 : 25 < q <;> simp [correct_qty, h1, h2]
  · intro q
    by_cases h2 : 25 < q <;> simp [correct_qty, h2]
  · intro a?
    rcases a? with _ | a <;> simp [correct_qty]
  · intro b? row item h
    unfold processRow at h
    split at h
    · exact absurd h (by simp)
    · split at h
      next => exact absurd h (by simp)
      next a ha =>
        split at h
        · exact absurd h (by simp)
        · injection h with h
          rw [← h]

/-- C4 witness: the zero-quantity example row's emitted quantity is the
corrected value of its parsed buckets. -/
theorem c4_witness :
    item5.item_quantity =
      correct_qty (qtyParsed (some bnd5) row5) (amountParsed (some bnd5) row5) :=
  c4_qty_corrections.2.2.2.2.2 (some bnd5) row5 item5 (by with_unfolding_all decide)

/-- C5: the claim is false: `item_quantity` need not be strictly positive.
A data row whose quantity bucket holds the token `0` (with a distinct
amount, so neither correction fires) is emitted with `item_quantity = 0`. -/
theorem c5_counterexample :
    extract_items [[], row5] (some 0) (some bnd5) = [item5] ∧
    ¬ (0 < item5.item_quantity) := by
  with_unfolding_all decide

/-- C5 (amended): every emitted LineItem has `item_amount` present and
numeric (the parsed amount value), `item_quantity` numeric, equal to the
corrected quantity and at most 25 — but not necessarily positive — and
`item_rate` numeric, equal to `item_amount` when no rate was determined
and to the determined rate otherwise. -/
theorem c5_item_invariants (b? : Option Boundaries) (row : Row) (item : LineItem)
    (h : processRow b? row = some item) :
    amountParsed b? row = some item.item_amount ∧
    item.item_quantity = correct_qty (qtyParsed b? row) (amountParsed b? row) ∧
    item.item_quantity ≤ 25 ∧
    (rateFinal b? row = none → item.item_rate = item.item_amount) ∧
    (∀ r, rateFinal b? row = some r → item.item_rate = r) := by
  unfold processRow at h
  split at h
  · exact absurd h (by simp)
  · split at h
    next => exact absurd h (by simp)
    next a ha =>
      split at h
      · exact absurd h (by simp)
      · injection h with h
        subst h
        refine ⟨ha, rfl, correct_qty_le _ _, ?_, ?_⟩
        · intro h0
          simp [h0]
        · intro r hr
          simp [hr]

/-- C5 witness: the amended invariants evaluated on the zero-quantity
example row. -/
theorem c5_witness :
    amountParsed (some bnd5) row5 = some item5.item_amount ∧
    item5.item_quantity = correct_qty (qtyParsed (some bnd5) row5) (amountParsed (some bnd5) row5) ∧
    item5.item_quantity ≤ 25 ∧
    (rateFinal (some bnd5) row5 = none → item5.item_rate = item5.item_amount) ∧
    (∀ r, rateFinal (some bnd5) row5 = some r → item5.item_rate = r) :=
  c5_item_invariants (some bnd5) row5 item5 (by with_unfolding_all decide)

/-- C6: when no header was detected, `extract_items` returns the empty
list as a normal outcome; and the extraction is a per-row `filterMap` of a
total per-row function, so every per-row condition (footer/section filter,
failed parse, empty description, absent amount) skips only its own row and
no input can abort the overall extraction. -/
theorem c6_error_handling :
    (∀ (rows : List Row) (b? : Option Boundaries), extract_items rows none b? = []) ∧
    (∀ (rows : List Row) (i : Nat) (b? : Option Boundaries),
       extract_items rows (some i) b? = (rows.drop (i + 1)).filterMap (processRow b?)) := by
  refine ⟨fun rows b? => rfl, fun rows i b? => ?_⟩
  simpa [extract_items] using extractLoop_eq_filterMap b? (rows.drop (i + 1))

/-- C7: `to_float` returns `none` when its argument is empty after
trimming or contains a slash; otherwise it strips commas and attempts a
decimal parse, returning the parsed number on success and `none` on parse
failure; it is a total function (the bare `except` of the source maps to
the `Option` result, never a fault). -/
theorem c7_to_float (s : String) :
    (pyStrip s = "" → to_float s = none) ∧
    (strContainsChar (pyStrip s) '/' = true → to_float s = none) ∧
    (pyStrip s ≠ "" → strContainsChar (pyStrip s) '/' = false →
      to_float s = pyFloat (removeCommas (pyStrip s))) ∧
    (∀ v : ℚ, to_float s = some v →
      pyStrip s ≠ "" ∧ strContainsChar (pyStrip s) '/' = false) := by
  refine ⟨?_, ?_, ?_, ?_⟩
  · intro h
    simp [to_float, h]
  · intro h
    simp [to_float, h]
  · intro h1 h2
    simp [to_float, h1, h2]
  · intro v hv
    by_cases h1 : pyStrip s = ""
    · simp [to_float, h1] at hv
    · by_cases h2 : strContainsChar (pyStrip s) '/' = true
      · simp [to_float, h2] at hv
      · exact ⟨h1, by simpa using h2⟩

/-- C7 witness: a slash-containing input resolves to absent; a comma
input is parsed from its comma-stripped trimmed text. -/
theorem c7_witness :
    to_float " 12/05 " = none ∧
    to_float "1,234.50" = pyFloat (removeCommas (pyStrip "1,234.50")) :=
  ⟨(c7_to_float " 12/05 ").2.1 (by decide),
   (c7_to_float "1,234.50").2.2.1 (by decide) (by decide)⟩

/-- C8: the amount is taken from the amount bucket restricted to tokens
containing a digit and no slash; the last qualifying token's parse is the
amount; when at least two qualifying tokens exist and the rate bucket
parsed to nothing, the second-to-last qualifying token's parse becomes the
rate; and an emitted item's `item_amount` is exactly the parsed amount. -/
theorem c8_amount_rate_selection (b? : Option Boundaries) (row : Row) :
    amountCandidates b? row =
      (rowBuckets b? row).amountB.filter (fun t => has_digit t && !strContainsChar t '/') ∧
    (∀ t, (amountCandidates b? row).getLast? = some t → amountParsed b? row = to_float t) ∧
    (∀ (pre : List String) (t2 tl : String), amountCandidates b? row = pre ++ [t2, tl] →
      rateParsed b? row = none → rateFinal b? row = to_float t2) ∧
    (∀ item : LineItem, processRow b? row = some item →
      some item.item_amount = amountParsed b? row) := by
  refine ⟨rfl, ?_, ?_, ?_⟩
  · intro t ht
    unfold amountParsed
    rw [ht]
  · intro pre t2 tl hc hr
    have hcond : (rateParsed b? row).isNone ∧ 2 ≤ (amountCandidates b? row).length := by
      refine ⟨by simp [hr], ?_⟩
      rw [hc]
      simp
    simp only [rateFinal]
    rw [if_pos hcond, hc]
    have hl : (pre ++ [t2, tl]).length - 2 = pre.length := by simp
    rw [hl]
    have hget : (pre ++ [t2, tl]).get? pre.length = some t2 := by
      rw [List.get?_append_right (le_refl _)]
      simp
    rw [getD_eq_of_get? _ _ _ _ hget]
  · intro item h
    unfold processRow at h
    split at h
    · exact absurd h (by simp)
    · split at h
      next => exact absurd h (by simp)
      next a ha =>
        split at h
        · exact absurd h (by simp)
        · injection h with h
          rw [← h, ha]

/-- C8 witness: with qualifying amount tokens `5.00, 7.00` and an empty
rate bucket, the amount is the parse of `7.00` and the rate the parse of
`5.00`. -/
theorem c8_witness :
    amountParsed none row8 = to_float "7.00" ∧
    rateFinal none row8 = to_float "5.00" :=
  ⟨(c8_amount_rate_selection none row8).2.1 "7.00" (by decide),
   (c8_amount_rate_selection none row8).2.2.1 [] "5.00" "7.00" (by decide)
     (by with_unfolding_all decide)⟩

/-- C9: for every header row, the boundary values produced by
`detect_header_and_boundaries`, restricted to those present, are strictly
increasing in the order `desc_end`, `date_end`, `qty_end`, `rate_end`
(stated for every pair in that order). -/
theorem c9_boundaries_increasing (rows : List Row) (i : Nat) (b : Boundaries)
    (h : detect_header_and_boundaries rows = (some i, some b)) :
    (∀ u v, b.desc_end = some u → b.date_end = some v → u < v) ∧
    (∀ u v, b.desc_end = some u → b.qty_end = some v → u < v) ∧
    (∀ u v, b.desc_end = some u → b.rate_end = some v → u < v) ∧
    (∀ u v, b.date_end = some u → b.qty_end = some v → u < v) ∧
    (∀ u v, b.date_end = some u → b.rate_end = some v → u < v) ∧
    (∀ u v, b.qty_end = some u → b.rate_end = some v → u < v) := by
  obtain ⟨l, rfl⟩ := detect_boundary_shape rows (some i) b h
  exact mkBoundaries_lt _ (sortedDistinct_pairwise_lt l)

/-- C9 witness: the boundaries produced for `rows1` satisfy
`desc_end < date_end < qty_end`. -/
theorem c9_witness : (155 : ℚ) < 350 ∧ (350 : ℚ) < 450 := by
  have h := c9_boundaries_increasing rows1 0 bnd1 (by with_unfolding_all decide)
  exact ⟨h.1 155 350 rfl rfl, h.2.2.2.1 350 450 rfl rfl⟩

/-- C10: the boundary keys present in a mapping returned by
`detect_header_and_boundaries` always form a prefix of the sequence
`desc_end`, `date_end`, `qty_end`, `rate_end`: a present `rate_end`
implies a present `qty_end`, and so on leftwards, so a missing boundary
occurs only at the right end of the layout. -/
theorem c10_boundary_keys (rows : List Row) (i? : Option Nat) (b : Boundaries)
    (h : detect_header_and_boundaries rows = (i?, some b)) :
    (b.rate_end.isSome = true → b.qty_end.isSome = true) ∧
    (b.qty_end.isSome = true → b.date_end.isSome = true) ∧
    (b.date_end.isSome = true → b.desc_end.isSome = true) := by
  obtain ⟨l, rfl⟩ := detect_boundary_shape rows i? b h
  exact mkBoundaries_keys _

/-- C10 witness: the prefix property instantiated on the boundaries
produced for `rows1`. -/
theorem c10_witness :
    (bnd1.rate_end.isSome = true → bnd1.qty_end.isSome = true) ∧
    (bnd1.qty_end.isSome = true → bnd1.date_end.isSome = true) ∧
    (bnd1.date_end.isSome = true → bnd1.desc_end.isSome = true) :=
  c10_boundary_keys rows1 (some 0) bnd1 (by with_unfolding_all decide)
